import Mathlib

/-!
Verification of the SPV client's peer-to-peer engine: a shallow embedding of
the wire codec (`src/encoder.h`), the header chain, and the `Client` manager
(`src/client.cc`), with theorems about the specified behaviour.

Bytes are modelled as `Nat` values below 256; buffers as `List Nat`.
-/

/-! ## Chain and client model

The client (`src/client.cc`) treats hashes and peer addresses as opaque
identifiers, so the model is parametric in both. -/

/-- Little-endian byte encoding of `n` into exactly `k` bytes, truncating at
`2^(8*k)` the way a C integral conversion does (`htole16`/`htole32`/`htole64`
in `encoder.h`). -/
def leBytes : Nat → Nat → List Nat
  | 0, _ => []
  | k + 1, n => n % 256 :: leBytes k (n / 256)

/-- Value denoted by a little-endian byte list. -/
def leDecode : List Nat → Nat
  | [] => 0
  | b :: t => b + 256 * leDecode t

/-- `Encoder::push_varint` from `src/encoder.h`: Bitcoin variable-length
integer emission.  `<0xFD` is one literal byte; `0xFD`+u16le; `0xFE`+u32le;
`0xFF`+u64le. -/
def push_varint (n : Nat) : List Nat :=
  if n < 0xfd then leBytes 1 n
  else if n ≤ 0xffff then 0xfd :: leBytes 2 n
  else if n ≤ 0xffffffff then 0xfe :: leBytes 4 n
  else 0xff :: leBytes 8 n

/-- A legal wire varint encoding of the value `n`: one of the four forms of
the protocol whose denoted value is `n`. -/
def legalVarint (n : Nat) (bs : List Nat) : Prop :=
  (n < 0xfd ∧ bs = [n]) ∨
  (∃ t, bs = 0xfd :: t ∧ t.length = 2 ∧ (∀ b ∈ t, b < 256) ∧ leDecode t = n) ∨
  (∃ t, bs = 0xfe :: t ∧ t.length = 4 ∧ (∀ b ∈ t, b < 256) ∧ leDecode t = n) ∨
  (∃ t, bs = 0xff :: t ∧ t.length = 8 ∧ (∀ b ∈ t, b < 256) ∧ leDecode t = n)

/-- Segment extraction: `len` bytes starting at `off`. -/
def extractBytes (l : List Nat) (off len : Nat) : List Nat :=
  (l.drop off).take len

/-- A block header, `struct BlockHeader` of `src/fields.h`: the six wire
fields plus the locally assigned `height` and the derived `block_hash`.  The
hash type is a parameter; the codec instantiates it with 32-byte lists and
the client model with opaque identifiers. -/
structure BlockHeader (H : Type) where
  version : Nat
  prev_block : H
  merkle_root : H
  timestamp : Nat
  difficulty : Nat
  nonce : Nat
  height : Nat
  block_hash : H
deriving DecidableEq

/-- `Encoder::push(hash_t)` from `src/encoder.h`: the hash bytes are
reversed before being appended. -/
def pushHash (h : List Nat) : List Nat := h.reverse

/-- `Encoder::push(const BlockHeader&)` from `src/encoder.h`: the six wire
fields in order, scalars little-endian, hashes reversed, and an optional
trailing varint transaction count of 0. -/
def encodeBlockHeader (hdr : BlockHeader (List Nat)) (push_tx_count : Bool) : List Nat :=
  leBytes 4 hdr.version ++ (pushHash hdr.prev_block ++ (pushHash hdr.merkle_root ++
    (leBytes 4 hdr.timestamp ++ (leBytes 4 hdr.difficulty ++ (leBytes 4 hdr.nonce ++
      (if push_tx_count then push_varint 0 else []))))))

def w4hdr : BlockHeader (List Nat) :=
  ⟨7, List.range 32, (List.range 32).map (· + 100), 9, 11, 13, 0, []⟩

/-- Overwrite `patch.length` bytes of `l` in place starting at `off` —
`Buffer::insert` as used by `Encoder::finish_headers`: the 24-byte message
header was already emitted by the `Encoder(Headers)` constructor, so the
length and checksum words are patched over their placeholders. -/
def overwriteAt (l : List Nat) (off : Nat) (patch : List Nat) : List Nat :=
  l.take off ++ (patch ++ l.drop (off + patch.length))

/-- `Encoder::finish_headers` from `src/encoder.h`: write the little-endian
payload length at offset 16 (`HEADER_LEN_OFFSET`) and the first 4 checksum
bytes of the payload at offset 20 (`HEADER_CHECKSUM_OFFSET`); the payload is
everything after the 24-byte header (`HEADER_SIZE`).  The double-SHA-256 is
the abstract collaborator `dsha`. -/
def finish_headers (dsha : List Nat → List Nat) (buf : List Nat) : List Nat :=
  let b1 := overwriteAt buf 16 (leBytes 4 (buf.length - 24))
  let cks := (dsha (b1.drop 24)).take 4
  overwriteAt b1 20 cks

def w5dsha : List Nat → List Nat := fun _ => List.range 32

def w5buf : List Nat := List.replicate 24 0 ++ [1, 2, 3]

namespace spv

variable {H A : Type} [DecidableEq H] [DecidableEq A]

/-- Modelled from the spec: a node of the chain-aware `Chain` (the variant
`client.cc` uses; its implementation file is not in the source tree) — each
node records its hash, parent hash, cumulative height and timestamp. -/
structure ChainNode (H : Type) where
  hash : H
  parent : H
  height : Nat
  timestamp : Nat
deriving DecidableEq

/-- Modelled from the spec: a forest of headers indexed by `block_hash` with
a cached tip of maximal height. -/
structure Chain (H : Type) where
  nodes : List (ChainNode H)
  tip : ChainNode H
deriving DecidableEq

def chainFind (nodes : List (ChainNode H)) (h : H) : Option (ChainNode H) :=
  nodes.find? fun n => decide (n.hash = h)

/-- Modelled from the spec: `Chain::has_block(hash)` is an O(1) map lookup. -/
def has_block (c : Chain H) (h : H) : Bool :=
  (chainFind c.nodes h).isSome

/-- Modelled from the spec: `Chain::put_block_header(hdr)` inserts if
`prev_block` is known and `block_hash` is new, assigns
`height = parent.height + 1`, and updates the tip if strictly higher;
duplicates and orphans are no-ops. -/
def put_block_header (c : Chain H) (hdr : BlockHeader H) : Chain H :=
  if has_block c hdr.block_hash then c
  else
    match chainFind c.nodes hdr.prev_block with
    | none => c
    | some p =>
      let node : ChainNode H := ⟨hdr.block_hash, hdr.prev_block, p.height + 1, hdr.timestamp⟩
      ⟨node :: c.nodes, if c.tip.height < node.height then node else c.tip⟩

/-- Modelled from the spec: `Chain::tip_is_recent()` is true iff the tip's
timestamp is within 24 hours (86400 s) of the wall clock `now`. -/
def tip_is_recent (now : Nat) (c : Chain H) : Bool :=
  decide (now - c.tip.timestamp < 86400)

/-- `InvType` from `src/fields.h` (TX=1, BLOCK=2, FILTERED_BLOCK=3). -/
inductive InvType where
  | TX
  | BLOCK
  | FILTERED_BLOCK
deriving DecidableEq

/-- `Inv` from `src/fields.h`: an inventory entry; equality is field-wise. -/
structure Inv (H : Type) where
  type : InvType
  hash : H
deriving DecidableEq

/-- `NetAddr` from `src/addr.h`: gossip address entry. -/
structure NetAddr (A : Type) where
  time : Nat
  services : Nat
  addr : A
deriving DecidableEq

/-- `Connection` state visible to the client (`src/connection.h`):
`connected() ≡ have_version && have_verack`; `shut` records that
`Connection::shutdown()` ran. -/
structure Conn where
  have_version : Bool
  have_verack : Bool
  shut : Bool
deriving DecidableEq

def Conn.connected (c : Conn) : Bool := c.have_version && c.have_verack

/-- Externally visible requests the client issues: `chain_.save_tip()`,
`conn->get_headers(...)`, `conn->get_data(inv)` and `connect_to_addr(addr)`. -/
inductive ClientAction (H A : Type) where
  | save_tip
  | getheaders (a : A)
  | getdata (i : Inv H)
  | connect (a : A)
deriving DecidableEq

/-- The `Client` state of `src/client.cc`: shutdown flag, header-sync flag,
whether the global 19 s header timer is armed, the chain, the pending-inv
set, the known-peer and seed-peer pools, the connection map keyed by `Addr`,
the connection cap and the outstanding DNS request count. -/
structure ClientState (H A : Type) where
  shutdown_ : Bool
  need_headers_ : Bool
  hdr_timeout_ : Bool
  chain_ : Chain H
  pending_inv_ : List (Inv H)
  peers_ : List (NetAddr A)
  seed_peers_ : List A
  connections_ : List (A × Conn)
  max_connections : Nat
  dns_requests_ : Nat
deriving DecidableEq

/-- `Client::is_connected_to_addr` from `src/client.cc`. -/
def is_connected_to_addr (st : ClientState H A) (a : A) : Bool :=
  decide (a ∈ st.connections_.map Prod.fst)

/-- The candidate list built from `peers_` by `Client::select_peer`:
known-peer addresses not already connected. -/
def select_peer_known (st : ClientState H A) : List A :=
  (st.peers_.filter fun p => decide (¬ p.addr ∈ st.connections_.map Prod.fst)).map
    fun p => p.addr

/-- The fallback candidate list of `Client::select_peer`: seed peers not
already connected. -/
def select_peer_seed (st : ClientState H A) : List A :=
  st.seed_peers_.filter fun a => decide (¬ a ∈ st.connections_.map Prod.fst)

/-- `Client::select_peer` from `src/client.cc`.  The uniform choice
`random_choice` is modelled by an arbitrary index `k`; `none` models the
`assert(peers.size())` failure when both candidate lists are empty. -/
def select_peer (k : Nat) (st : ClientState H A) : Option A :=
  match (select_peer_known st)[k % (select_peer_known st).length]? with
  | some a => some a
  | none => (select_peer_seed st)[k % (select_peer_seed st).length]?

/-- `Client::connect_to_new_peer` from `src/client.cc`: when not shut down
and under the cap, connect to `select_peer()`.  `none` models the assertion
failure inside `select_peer`. -/
def connect_to_new_peer (k : Nat) (st : ClientState H A) :
    Option (ClientState H A × List (ClientAction H A)) :=
  if st.shutdown_ = false ∧ st.connections_.length < st.max_connections then
    match select_peer k st with
    | none => none
    | some a => some (st, [ClientAction.connect a])
  else some (st, [])

/-- `Client::shutdown` from `src/client.cc`: guarded by the flag; shuts down
every connection, cancels the header timer and the DNS requests. -/
def client_shutdown (st : ClientState H A) : ClientState H A :=
  if st.shutdown_ then st
  else
    { st with
      shutdown_ := true
      connections_ := st.connections_.map fun c => (c.1, { c.2 with shut := true })
      hdr_timeout_ := false
      dns_requests_ := 0 }

/-- `Client::notify_peer` from `src/client.cc`: insert the gossiped address
into `peers_`; if new, under the cap and not already connected, open a
connection to it. -/
def notify_peer (st : ClientState H A) (na : NetAddr A) :
    ClientState H A × List (ClientAction H A) :=
  if na ∈ st.peers_ then (st, [])
  else
    let st' := { st with peers_ := na :: st.peers_ }
    if st'.connections_.length < st'.max_connections ∧
        is_connected_to_addr st' na.addr = false then
      (st', [ClientAction.connect na.addr])
    else (st', [])

/-- `Client::random_connection` from `src/client.cc`: a uniform choice
(arbitrary index `k`) among connections with `connected()`; `none` when
there is no connected peer. -/
def random_connection (k : Nat) (st : ClientState H A) : Option (A × Conn) :=
  (st.connections_.filter fun c => c.2.connected)[k %
    (st.connections_.filter fun c => c.2.connected).length]?

/-- `Client::sync_more_headers` from `src/client.cc`: with no explicit
connection, pick a random connected one — `assert(conn != nullptr)`; then
`assert(!hdr_timeout_)`, arm the 19 s timer and issue `getheaders`.  `none`
models either assertion failing. -/
def sync_more_headers (k : Nat) (st : ClientState H A) (conn : Option (A × Conn)) :
    Option (ClientState H A × List (ClientAction H A)) :=
  match (match conn with
         | some c => some c
         | none => random_connection k st) with
  | none => none
  | some c =>
    if st.hdr_timeout_ then none
    else some ({ st with hdr_timeout_ := true }, [ClientAction.getheaders c.1])

/-- Loop body of `Client::notify_headers`: insert the header into the chain
and erase a pending `Inv(BLOCK, hdr.block_hash)` entry if present. -/
def hdr_step (st : ClientState H A) (hdr : BlockHeader H) : ClientState H A :=
  { st with
    chain_ := put_block_header st.chain_ hdr
    pending_inv_ := st.pending_inv_.filter fun i =>
      decide (¬ i = ⟨InvType.BLOCK, hdr.block_hash⟩) }

/-- `Client::notify_headers` from `src/client.cc`: cancel the header timer;
if the reply is empty and the tip is recent, finish header sync; otherwise
process every header in order, call `save_tip` and re-issue
`sync_more_headers()`. -/
def notify_headers (k now : Nat) (st : ClientState H A) (batch : List (BlockHeader H)) :
    Option (ClientState H A × List (ClientAction H A)) :=
  if batch.isEmpty && tip_is_recent now st.chain_ then
    some ({ st with hdr_timeout_ := false, need_headers_ := false }, [])
  else
    match sync_more_headers k (batch.foldl hdr_step { st with hdr_timeout_ := false }) none with
    | none => none
    | some (st2, acts) => some (st2, ClientAction.save_tip :: acts)

/-- `Client::need_inv` from `src/client.cc`: an inv is needed iff it is not
pending and its hash is not in the chain. -/
def need_inv (st : ClientState H A) (inv : Inv H) : Bool :=
  if inv ∈ st.pending_inv_ then false
  else !(has_block st.chain_ inv.hash)

/-- `Client::notify_inv` from `src/client.cc`: if needed, add to
`pending_inv_` and request via `get_data`. -/
def notify_inv (st : ClientState H A) (inv : Inv H) :
    ClientState H A × List (ClientAction H A) :=
  if need_inv st inv then
    ({ st with pending_inv_ := inv :: st.pending_inv_ }, [ClientAction.getdata inv])
  else (st, [])

def w10st : ClientState Nat Nat :=
  ⟨false, true, false, ⟨[⟨0, 0, 0, 0⟩], ⟨0, 0, 0, 0⟩⟩, [], [], [],
   [(3, ⟨true, false, false⟩)], 8, 0⟩

def w6st : ClientState Nat Nat :=
  ⟨false, true, true, ⟨[⟨0, 0, 0, 0⟩], ⟨0, 0, 0, 0⟩⟩, [], [], [],
   [(5, ⟨true, true, false⟩)], 8, 0⟩

def w6inv : Inv Nat := ⟨InvType.BLOCK, 1⟩

def w6hdr : BlockHeader Nat := ⟨1, 0, 0, 0, 0, 0, 0, 1⟩

def w7st : ClientState Nat Nat :=
  ⟨false, true, false, ⟨[⟨0, 0, 0, 0⟩], ⟨0, 0, 0, 0⟩⟩, [],
   [⟨0, 0, 1⟩, ⟨0, 0, 2⟩], [3], [(2, ⟨true, true, false⟩)], 8, 0⟩

def genesisNode : ChainNode Nat := ⟨0, 0, 0, 0⟩

def chain0 : Chain Nat := ⟨[genesisNode], genesisNode⟩

def w8st : ClientState Nat Nat := ⟨true, false, false, chain0, [], [], [], [], 8, 0⟩

def c9st : ClientState Nat Nat := ⟨false, true, false, chain0, [], [], [], [], 8, 0⟩

def c1st : ClientState Nat Nat :=
  ⟨false, true, true, chain0, [⟨InvType.TX, 1⟩], [], [], [(5, ⟨true, true, false⟩)], 8, 0⟩

def c1hdr : BlockHeader Nat := ⟨1, 0, 0, 0, 0, 0, 0, 1⟩

/-- A scripted linear header at height `i` in the scenario chain: hash `i`,
parent hash `i - 1`. -/
def mkHeader (i ts : Nat) : BlockHeader Nat := ⟨1, i - 1, 0, ts, 0, 0, 0, i⟩

/-- A scripted batch of consecutive headers on top of hash `s`, one per
timestamp. -/
def mkBatch : Nat → List Nat → List (BlockHeader Nat)
  | _, [] => []
  | s, ts :: rest => mkHeader (s + 1) ts :: mkBatch (s + 1) rest

/-- The scenario chain is a straight line ending at hash `s`: the tip has
hash `s`, is indexed, and every node hash is at most `s`. -/
def linearInv (s : Nat) (c : Chain Nat) : Prop :=
  c.tip.hash = s ∧ chainFind c.nodes s = some c.tip ∧ ∀ n ∈ c.nodes, n.hash ≤ s

def scnNow : Nat := 1000000

def tssA : List Nat := List.replicate 2000 0

def tssB : List Nat := List.replicate 499 0 ++ [scnNow]

def batchA : List (BlockHeader Nat) := mkBatch 0 tssA

def batchB : List (BlockHeader Nat) := mkBatch 2000 tssB

/-- Initial scenario client: genesis chain, one CONNECTED peer at address 7,
a `getheaders` in flight (`hdr_timeout_` armed). -/
def st0scn : ClientState Nat Nat :=
  ⟨false, true, true, chain0, [], [], [], [(7, ⟨true, true, false⟩)], 8, 0⟩

def scnS1fold : ClientState Nat Nat :=
  batchA.foldl hdr_step { st0scn with hdr_timeout_ := false }

def scnS1 : ClientState Nat Nat := { scnS1fold with hdr_timeout_ := true }

def scnS2fold : ClientState Nat Nat :=
  batchB.foldl hdr_step { scnS1 with hdr_timeout_ := false }

def scnS2 : ClientState Nat Nat := { scnS2fold with hdr_timeout_ := true }

def scnS3 : ClientState Nat Nat :=
  { scnS2 with hdr_timeout_ := false, need_headers_ := false }

def countSaveTip (acts : List (ClientAction Nat Nat)) : Nat :=
  (acts.filter fun a => match a with
    | ClientAction.save_tip => true
    | _ => false).length

attribute [irreducible] batchA batchB scnS1fold scnS2fold

end spv

theorem leBytes_length (k n : Nat) : (leBytes k n).length = k := by
  induction k generalizing n with
  | zero => rfl
  | succ k ih => simp [leBytes, ih]

theorem leBytes_lt (k n : Nat) : ∀ b ∈ leBytes k n, b < 256 := by
  induction k generalizing n with
  | zero => intro b hb; simp [leBytes] at hb
  | succ k ih =>
    intro b hb
    simp only [leBytes, List.mem_cons] at hb
    rcases hb with h | h
    · subst h; exact Nat.mod_lt _ (by norm_num)
    · exact ih _ b h

theorem leDecode_leBytes (k n : Nat) : leDecode (leBytes k n) = n % 256 ^ k := by
  induction k generalizing n with
  | zero => simp [leBytes, leDecode, Nat.mod_one]
  | succ k ih =>
    simp only [leBytes, leDecode, ih]
    rw [pow_succ', Nat.mod_mul]

theorem leDecode_lt (bs : List Nat) (h : ∀ b ∈ bs, b < 256) :
    leDecode bs < 256 ^ bs.length := by
  induction bs with
  | nil => simp [leDecode]
  | cons b t ih =>
    have hb : b < 256 := h b (by simp)
    have ht : leDecode t < 256 ^ t.length := ih fun x hx => h x (by simp [hx])
    simp only [leDecode, List.length_cons, Nat.pow_succ]
    calc b + 256 * leDecode t < 256 + 256 * leDecode t := by omega
      _ = 256 * (leDecode t + 1) := by ring
      _ ≤ 256 * 256 ^ t.length := by
          exact Nat.mul_le_mul_left 256 (Nat.succ_le_of_lt ht)
      _ = 256 ^ t.length * 256 := by ring

theorem push_varint_length (n : Nat) :
    (push_varint n).length =
      if n < 0xfd then 1 else if n ≤ 0xffff then 3 else if n ≤ 0xffffffff then 5 else 9 := by
  unfold push_varint
  split_ifs <;> simp [leBytes_length]

/-- C3: `push_varint` always emits the shortest legal varint form — the
literal byte below 0xFD, `0xFD`+u16le up to 0xFFFF, `0xFE`+u32le up to
0xFFFFFFFF, and `0xFF`+u64le above that; no legal encoding of the same value
is shorter. -/
theorem push_varint_shortest (n : Nat) (hn : n < 2 ^ 64) :
    (n < 0xfd → push_varint n = [n]) ∧
    (0xfd ≤ n → n ≤ 0xffff → push_varint n = 0xfd :: leBytes 2 n) ∧
    (0x10000 ≤ n → n ≤ 0xffffffff → push_varint n = 0xfe :: leBytes 4 n) ∧
    (0x100000000 ≤ n → push_varint n = 0xff :: leBytes 8 n) ∧
    legalVarint n (push_varint n) ∧
    ∀ bs, legalVarint n bs → (push_varint n).length ≤ bs.length := by
  refine ⟨?_, ?_, ?_, ?_, ?_, ?_⟩
  · intro h
    simp only [push_varint, if_pos h, leBytes, leDecode]
    rw [Nat.mod_eq_of_lt (by omega)]
  · intro h1 h2
    simp only [push_varint]
    rw [if_neg (by omega), if_pos h2]
  · intro h1 h2
    simp only [push_varint]
    rw [if_neg (by omega), if_neg (by omega), if_pos h2]
  · intro h1
    simp only [push_varint]
    rw [if_neg (by omega), if_neg (by omega), if_neg (by omega)]
  · unfold push_varint legalVarint
    split_ifs with h1 h2 h3
    · refine Or.inl ⟨h1, ?_⟩
      simp only [leBytes, leDecode]
      rw [Nat.mod_eq_of_lt (by omega)]
    · refine Or.inr (Or.inl ⟨leBytes 2 n, rfl, leBytes_length 2 n, leBytes_lt 2 n, ?_⟩)
      rw [leDecode_leBytes]
      exact Nat.mod_eq_of_lt (by norm_num; omega)
    · refine Or.inr (Or.inr (Or.inl
        ⟨leBytes 4 n, rfl, leBytes_length 4 n, leBytes_lt 4 n, ?_⟩))
      rw [leDecode_leBytes]
      exact Nat.mod_eq_of_lt (by norm_num; omega)
    · refine Or.inr (Or.inr (Or.inr
        ⟨leBytes 8 n, rfl, leBytes_length 8 n, leBytes_lt 8 n, ?_⟩))
      rw [leDecode_leBytes]
      exact Nat.mod_eq_of_lt (by norm_num; omega)
  · intro bs hbs
    rw [push_varint_length]
    rcases hbs with ⟨hlt, rfl⟩ | ⟨t, rfl, hlen, hbd, hdec⟩ |
      ⟨t, rfl, hlen, hbd, hdec⟩ | ⟨t, rfl, hlen, hbd, hdec⟩
    · rw [if_pos hlt]
      simp
    · have hb : n < 65536 := by
        have := leDecode_lt t hbd
        rw [hlen, hdec] at this
        norm_num at this
        exact this
      simp only [List.length_cons, hlen]
      split_ifs <;> omega
    · have hb : n < 4294967296 := by
        have := leDecode_lt t hbd
        rw [hlen, hdec] at this
        norm_num at this
        exact this
      simp only [List.length_cons, hlen]
      split_ifs <;> omega
    · simp only [List.length_cons, hlen]
      split_ifs <;> omega

theorem append_drop_len (l₁ l₂ : List Nat) (n : Nat) (h : l₁.length = n) :
    (l₁ ++ l₂).drop n = l₂ := by
  subst h
  simp

theorem append_take_len (l₁ l₂ : List Nat) (n : Nat) (h : l₁.length = n) :
    (l₁ ++ l₂).take n = l₁ := by
  subst h
  simp

theorem extractBytes_mid (pre mid post : List Nat) (n k : Nat)
    (hn : pre.length = n) (hk : mid.length = k) :
    extractBytes (pre ++ (mid ++ post)) n k = mid := by
  unfold extractBytes
  rw [append_drop_len _ _ _ hn, append_take_len _ _ _ hk]

theorem extractBytes_congr (l₁ l₂ : List Nat) (m off k : Nat)
    (h : l₁.take m = l₂.take m) (hmk : off + k ≤ m) :
    extractBytes l₁ off k = extractBytes l₂ off k := by
  unfold extractBytes
  have e1 : ∀ l : List Nat, (l.take (off + k)).drop off = (l.drop off).take k := by
    intro l
    rw [List.drop_take]
    congr 1
    omega
  rw [← e1 l₁, ← e1 l₂]
  have t1 : (l₁.take m).take (off + k) = l₁.take (off + k) := by
    rw [List.take_take, Nat.min_eq_left hmk]
  have t2 : (l₂.take m).take (off + k) = l₂.take (off + k) := by
    rw [List.take_take, Nat.min_eq_left hmk]
  rw [← t1, ← t2, h]

/-- C4: encoding a header without the transaction count yields exactly 80
bytes laid out as version, prev_block, merkle_root, timestamp,
difficulty_bits, nonce — scalars little-endian, the two hashes byte-reversed
relative to their in-memory order. -/
theorem block_header_encoding (hdr : BlockHeader (List Nat))
    (hp : hdr.prev_block.length = 32) (hm : hdr.merkle_root.length = 32) :
    (encodeBlockHeader hdr false).length = 80 ∧
    extractBytes (encodeBlockHeader hdr false) 0 4 = leBytes 4 hdr.version ∧
    extractBytes (encodeBlockHeader hdr false) 4 32 = hdr.prev_block.reverse ∧
    extractBytes (encodeBlockHeader hdr false) 36 32 = hdr.merkle_root.reverse ∧
    extractBytes (encodeBlockHeader hdr false) 68 4 = leBytes 4 hdr.timestamp ∧
    extractBytes (encodeBlockHeader hdr false) 72 4 = leBytes 4 hdr.difficulty ∧
    extractBytes (encodeBlockHeader hdr false) 76 4 = leBytes 4 hdr.nonce := by
  have lv := leBytes_length 4 hdr.version
  have lt := leBytes_length 4 hdr.timestamp
  have ld := leBytes_length 4 hdr.difficulty
  have ln := leBytes_length 4 hdr.nonce
  have lp : (pushHash hdr.prev_block).length = 32 := by simp [pushHash, hp]
  have lm : (pushHash hdr.merkle_root).length = 32 := by simp [pushHash, hm]
  refine ⟨?_, ?_, ?_, ?_, ?_, ?_, ?_⟩
  · simp only [encodeBlockHeader, List.length_append, lv, lt, ld, ln, lp, lm,
      if_neg Bool.false_ne_true, List.length_nil]
  · have h0 : encodeBlockHeader hdr false =
        ([] : List Nat) ++ (leBytes 4 hdr.version ++ (pushHash hdr.prev_block ++
          (pushHash hdr.merkle_root ++ (leBytes 4 hdr.timestamp ++
            (leBytes 4 hdr.difficulty ++ (leBytes 4 hdr.nonce ++ [])))))) := by
      simp [encodeBlockHeader]
    rw [h0, extractBytes_mid _ _ _ 0 4 List.length_nil lv]
  · have h0 : encodeBlockHeader hdr false =
        leBytes 4 hdr.version ++ (pushHash hdr.prev_block ++
          (pushHash hdr.merkle_root ++ (leBytes 4 hdr.timestamp ++
            (leBytes 4 hdr.difficulty ++ (leBytes 4 hdr.nonce ++ []))))) := by
      simp [encodeBlockHeader]
    rw [h0, extractBytes_mid _ _ _ 4 32 lv lp]
    rfl
  · have h0 : encodeBlockHeader hdr false =
        (leBytes 4 hdr.version ++ pushHash hdr.prev_block) ++
          (pushHash hdr.merkle_root ++ (leBytes 4 hdr.timestamp ++
            (leBytes 4 hdr.difficulty ++ (leBytes 4 hdr.nonce ++ [])))) := by
      simp [encodeBlockHeader]
    rw [h0, extractBytes_mid _ _ _ 36 32 (by simp [lv, lp]) lm]
    rfl
  · have h0 : encodeBlockHeader hdr false =
        (leBytes 4 hdr.version ++ (pushHash hdr.prev_block ++ pushHash hdr.merkle_root)) ++
          (leBytes 4 hdr.timestamp ++
            (leBytes 4 hdr.difficulty ++ (leBytes 4 hdr.nonce ++ []))) := by
      simp [encodeBlockHeader]
    rw [h0, extractBytes_mid _ _ _ 68 4 (by simp [lv, lp, lm]) lt]
  · have h0 : encodeBlockHeader hdr false =
        (leBytes 4 hdr.version ++ (pushHash hdr.prev_block ++ (pushHash hdr.merkle_root ++
          leBytes 4 hdr.timestamp))) ++
          (leBytes 4 hdr.difficulty ++ (leBytes 4 hdr.nonce ++ [])) := by
      simp [encodeBlockHeader]
    rw [h0, extractBytes_mid _ _ _ 72 4 (by simp [lv, lp, lm, lt]) ld]
  · have h0 : encodeBlockHeader hdr false =
        (leBytes 4 hdr.version ++ (pushHash hdr.prev_block ++ (pushHash hdr.merkle_root ++
          (leBytes 4 hdr.timestamp ++ leBytes 4 hdr.difficulty)))) ++
          (leBytes 4 hdr.nonce ++ []) := by
      simp [encodeBlockHeader]
    rw [h0, extractBytes_mid _ _ _ 76 4 (by simp [lv, lp, lm, lt, ld]) ln]

theorem block_header_encoding_witness :
    (w4hdr.prev_block.length = 32 ∧ w4hdr.merkle_root.length = 32) ∧
    (encodeBlockHeader w4hdr false).length = 80 ∧
    extractBytes (encodeBlockHeader w4hdr false) 4 32 = w4hdr.prev_block.reverse :=
  ⟨⟨by decide, by decide⟩,
   (block_header_encoding w4hdr (by decide) (by decide)).1,
   (block_header_encoding w4hdr (by decide) (by decide)).2.2.1⟩

theorem push_varint_shortest_witness :
    (0x100000000 : Nat) < 2 ^ 64 ∧
    legalVarint 0x100000000 (push_varint 0x100000000) ∧
    (∀ bs, legalVarint 0x100000000 bs → (push_varint 0x100000000).length ≤ bs.length) ∧
    push_varint 0 = [0] ∧
    push_varint 0xfc = [0xfc] ∧
    push_varint 0xfd = [0xfd, 0xfd, 0] ∧
    push_varint 0xffff = [0xfd, 0xff, 0xff] ∧
    push_varint 0x10000 = [0xfe, 0, 0, 1, 0] ∧
    push_varint 0xffffffff = [0xfe, 0xff, 0xff, 0xff, 0xff] ∧
    push_varint 0x100000000 = [0xff, 0, 0, 0, 0, 1, 0, 0, 0] :=
  ⟨by norm_num,
   (push_varint_shortest 0x100000000 (by norm_num)).2.2.2.2.1,
   (push_varint_shortest 0x100000000 (by norm_num)).2.2.2.2.2,
   by decide, by decide, by decide, by decide, by decide, by decide, by decide⟩

theorem overwriteAt_length (l patch : List Nat) (off : Nat)
    (h : off + patch.length ≤ l.length) :
    (overwriteAt l off patch).length = l.length := by
  simp only [overwriteAt, List.length_append, List.length_take, List.length_drop]
  omega

theorem overwriteAt_take (l patch : List Nat) (off : Nat) (h : off ≤ l.length) :
    (overwriteAt l off patch).take off = l.take off := by
  unfold overwriteAt
  rw [append_take_len]
  simp
  omega

theorem overwriteAt_extract_self (l patch : List Nat) (off : Nat)
    (h : off ≤ l.length) :
    extractBytes (overwriteAt l off patch) off patch.length = patch := by
  unfold overwriteAt
  exact extractBytes_mid _ _ _ off patch.length (by simp; omega) rfl

theorem overwriteAt_drop (l patch : List Nat) (off n : Nat)
    (h : off + patch.length ≤ n) (hl : off + patch.length ≤ l.length) :
    (overwriteAt l off patch).drop n = l.drop n := by
  unfold overwriteAt
  rw [List.drop_append_eq_append_drop, List.drop_append_eq_append_drop]
  have hA : (l.take off).length = off := by simp; omega
  have d1 : (l.take off).drop n = [] := by
    apply List.drop_eq_nil_of_le
    omega
  have d2 : patch.drop (n - (l.take off).length) = [] := by
    apply List.drop_eq_nil_of_le
    omega
  rw [d1, d2, List.drop_drop, hA]
  have : off + patch.length + (n - off - patch.length) = n := by omega
  simp only [List.nil_append]
  congr 1

/-- C5: `finish_headers` produces a frame whose length field (offset 16)
is the little-endian count of the payload bytes after the 24-byte header and
whose checksum field (offset 20) is the first 4 bytes of the checksum of
exactly those payload bytes; the header prefix and payload are otherwise
unchanged. -/
theorem finish_headers_frame (dsha : List Nat → List Nat) (buf : List Nat)
    (hb : 24 ≤ buf.length) (hd : ∀ x, (dsha x).length = 32) :
    (finish_headers dsha buf).length = buf.length ∧
    extractBytes (finish_headers dsha buf) 16 4 = leBytes 4 (buf.length - 24) ∧
    leDecode (extractBytes (finish_headers dsha buf) 16 4) = (buf.length - 24) % 2 ^ 32 ∧
    extractBytes (finish_headers dsha buf) 20 4 = (dsha (buf.drop 24)).take 4 ∧
    (finish_headers dsha buf).drop 24 = buf.drop 24 ∧
    (finish_headers dsha buf).take 16 = buf.take 16 := by
  have l4 : (leBytes 4 (buf.length - 24)).length = 4 := leBytes_length _ _
  have hb1len : (overwriteAt buf 16 (leBytes 4 (buf.length - 24))).length = buf.length := by
    rw [overwriteAt_length]
    omega
  have hb1drop : (overwriteAt buf 16 (leBytes 4 (buf.length - 24))).drop 24 = buf.drop 24 := by
    rw [overwriteAt_drop] <;> omega
  have hcklen : ((dsha ((overwriteAt buf 16 (leBytes 4 (buf.length - 24))).drop 24)).take 4).length = 4 := by
    simp [hd]
  have hout : finish_headers dsha buf =
      overwriteAt (overwriteAt buf 16 (leBytes 4 (buf.length - 24))) 20
        ((dsha (buf.drop 24)).take 4) := by
    rw [finish_headers, hb1drop]
  have hck4 : ((dsha (buf.drop 24)).take 4).length = 4 := by simp [hd]
  refine ⟨?_, ?_, ?_, ?_, ?_, ?_⟩
  · rw [hout, overwriteAt_length, hb1len]
    rw [hb1len, hck4]
    omega
  · rw [hout]
    have ht : (overwriteAt (overwriteAt buf 16 (leBytes 4 (buf.length - 24))) 20
        ((dsha (buf.drop 24)).take 4)).take 20 =
        (overwriteAt buf 16 (leBytes 4 (buf.length - 24))).take 20 := by
      apply overwriteAt_take
      omega
    rw [extractBytes_congr _ _ 20 16 4 ht (by omega)]
    have := overwriteAt_extract_self buf (leBytes 4 (buf.length - 24)) 16 (by omega)
    rw [l4] at this
    exact this
  · have h2 : extractBytes (finish_headers dsha buf) 16 4 = leBytes 4 (buf.length - 24) := by
      rw [hout]
      have ht : (overwriteAt (overwriteAt buf 16 (leBytes 4 (buf.length - 24))) 20
          ((dsha (buf.drop 24)).take 4)).take 20 =
          (overwriteAt buf 16 (leBytes 4 (buf.length - 24))).take 20 := by
        apply overwriteAt_take
        omega
      rw [extractBytes_congr _ _ 20 16 4 ht (by omega)]
      have := overwriteAt_extract_self buf (leBytes 4 (buf.length - 24)) 16 (by omega)
      rw [l4] at this
      exact this
    rw [h2, leDecode_leBytes]
    norm_num
  · rw [hout]
    have := overwriteAt_extract_self (overwriteAt buf 16 (leBytes 4 (buf.length - 24)))
      ((dsha (buf.drop 24)).take 4) 20 (by omega)
    rw [hck4] at this
    exact this
  · rw [hout]
    rw [overwriteAt_drop _ _ _ _ (by rw [hck4]) (by rw [hb1len, hck4]; omega)]
    exact hb1drop
  · rw [hout]
    have h20 : (overwriteAt (overwriteAt buf 16 (leBytes 4 (buf.length - 24))) 20
        ((dsha (buf.drop 24)).take 4)).take 20 =
        (overwriteAt buf 16 (leBytes 4 (buf.length - 24))).take 20 := by
      apply overwriteAt_take
      omega
    have h16 : (overwriteAt buf 16 (leBytes 4 (buf.length - 24))).take 16 = buf.take 16 := by
      apply overwriteAt_take
      omega
    have e1 : (overwriteAt (overwriteAt buf 16 (leBytes 4 (buf.length - 24))) 20
        ((dsha (buf.drop 24)).take 4)).take 16 =
        ((overwriteAt (overwriteAt buf 16 (leBytes 4 (buf.length - 24))) 20
        ((dsha (buf.drop 24)).take 4)).take 20).take 16 := by
      rw [List.take_take]
      congr 1
    rw [e1, h20, List.take_take]
    simpa using h16

theorem finish_headers_frame_witness :
    ((24 ≤ w5buf.length) ∧ ∀ x, (w5dsha x).length = 32) ∧
    (finish_headers w5dsha w5buf).length = w5buf.length ∧
    extractBytes (finish_headers w5dsha w5buf) 16 4 = leBytes 4 (w5buf.length - 24) ∧
    extractBytes (finish_headers w5dsha w5buf) 20 4 = (w5dsha (w5buf.drop 24)).take 4 :=
  ⟨⟨by decide, fun x => rfl⟩,
   (finish_headers_frame w5dsha w5buf (by decide) (fun x => rfl)).1,
   (finish_headers_frame w5dsha w5buf (by decide) (fun x => rfl)).2.1,
   (finish_headers_frame w5dsha w5buf (by decide) (fun x => rfl)).2.2.2.1⟩

namespace spv

variable {H A : Type} [DecidableEq H] [DecidableEq A]

theorem getElem_mod_some {α : Type} (l : List α) (k : Nat) (h : l ≠ []) :
    ∃ x, l[k % l.length]? = some x ∧ x ∈ l := by
  have hl : 0 < l.length := List.length_pos.mpr h
  have hk : k % l.length < l.length := Nat.mod_lt _ hl
  exact ⟨l[k % l.length], by simp [List.getElem?_eq_getElem hk], List.getElem_mem hk⟩

theorem foldl_hdr_step_chain (batch : List (BlockHeader H)) (st : ClientState H A) :
    (batch.foldl hdr_step st).chain_ = batch.foldl put_block_header st.chain_ := by
  induction batch generalizing st with
  | nil => rfl
  | cons hdr t ih => simp [hdr_step, ih]

theorem foldl_hdr_step_frame (batch : List (BlockHeader H)) (st : ClientState H A) :
    (batch.foldl hdr_step st).shutdown_ = st.shutdown_ ∧
    (batch.foldl hdr_step st).need_headers_ = st.need_headers_ ∧
    (batch.foldl hdr_step st).hdr_timeout_ = st.hdr_timeout_ ∧
    (batch.foldl hdr_step st).connections_ = st.connections_ ∧
    (batch.foldl hdr_step st).peers_ = st.peers_ ∧
    (batch.foldl hdr_step st).seed_peers_ = st.seed_peers_ ∧
    (batch.foldl hdr_step st).max_connections = st.max_connections ∧
    (batch.foldl hdr_step st).dns_requests_ = st.dns_requests_ := by
  induction batch generalizing st with
  | nil => exact ⟨rfl, rfl, rfl, rfl, rfl, rfl, rfl, rfl⟩
  | cons hdr t ih => simpa [hdr_step] using ih (hdr_step st hdr)

theorem mem_foldl_hdr_step (batch : List (BlockHeader H)) (st : ClientState H A) (i : Inv H) :
    i ∈ (batch.foldl hdr_step st).pending_inv_ ↔
      i ∈ st.pending_inv_ ∧ ∀ hdr ∈ batch, ¬ i = ⟨InvType.BLOCK, hdr.block_hash⟩ := by
  induction batch generalizing st with
  | nil => simp
  | cons hdr t ih =>
    simp only [List.foldl_cons, ih, hdr_step, List.mem_filter, decide_eq_true_iff,
      List.forall_mem_cons]
    tauto

theorem sync_more_headers_eq_some (k : Nat) (st : ClientState H A) (conn : Option (A × Conn))
    (st2 : ClientState H A) (acts : List (ClientAction H A))
    (h : sync_more_headers k st conn = some (st2, acts)) :
    st2 = { st with hdr_timeout_ := true } ∧ ∃ a, acts = [ClientAction.getheaders a] := by
  unfold sync_more_headers at h
  cases hm : (match conn with
              | some c => some c
              | none => random_connection k st) with
  | none => rw [hm] at h; simp at h
  | some c =>
    rw [hm] at h
    by_cases ht : st.hdr_timeout_
    · simp [ht] at h
    · simp [ht] at h
      exact ⟨h.1.symm, c.1, h.2.symm⟩

theorem random_connection_some (k : Nat) (st : ClientState H A)
    (h : ∃ c ∈ st.connections_, c.2.connected = true) :
    ∃ c, random_connection k st = some c ∧ c ∈ st.connections_ ∧ c.2.connected = true := by
  obtain ⟨c, hc, hcc⟩ := h
  have hmem : c ∈ st.connections_.filter fun c => c.2.connected :=
    List.mem_filter.mpr ⟨hc, hcc⟩
  obtain ⟨x, hx, hxm⟩ := getElem_mod_some _ k (List.ne_nil_of_mem hmem)
  refine ⟨x, hx, ?_, ?_⟩
  · exact (List.mem_filter.mp hxm).1
  · exact (List.mem_filter.mp hxm).2

/-- C10: with no connection in the CONNECTED state, `random_connection`
returns null, and `sync_more_headers` called with no explicit connection
hits its `assert(conn != nullptr)` (modelled as `none`) instead of waiting
for a new peer. -/
theorem sync_more_headers_assert (st : ClientState H A) (k : Nat)
    (h : ∀ c ∈ st.connections_, c.2.connected = false) :
    random_connection k st = none ∧ sync_more_headers k st none = none := by
  have hf : (st.connections_.filter fun c => c.2.connected) = [] := by
    rw [List.filter_eq_nil_iff]
    intro c hc
    simp [h c hc]
  constructor
  · simp [random_connection, hf]
  · simp [sync_more_headers, random_connection, hf]

theorem sync_more_headers_assert_witness :
    (∀ c ∈ w10st.connections_, c.2.connected = false) ∧
    random_connection 0 w10st = none ∧ sync_more_headers 0 w10st none = none :=
  ⟨by decide, (sync_more_headers_assert w10st 0 (by decide)).1,
   (sync_more_headers_assert w10st 0 (by decide)).2⟩

/-- C6: `need_inv(inv)` is true iff `inv` is neither pending nor in the
chain; a needed inv is requested at most once while pending — a second
identical inv yields no second `getdata` — and a header received via
`notify_headers` whose hash matches a pending BLOCK inv clears that entry. -/
theorem need_inv_spec (st : ClientState H A) (inv : Inv H) :
    (need_inv st inv = true ↔
      (¬ inv ∈ st.pending_inv_ ∧ has_block st.chain_ inv.hash = false)) ∧
    (need_inv st inv = true →
      notify_inv st inv =
        ({ st with pending_inv_ := inv :: st.pending_inv_ }, [ClientAction.getdata inv]) ∧
      (notify_inv (notify_inv st inv).1 inv).2 = []) ∧
    (need_inv st inv = false → notify_inv st inv = (st, [])) ∧
    (∀ k now batch st' acts hdr, notify_headers k now st batch = some (st', acts) →
      hdr ∈ batch → inv = ⟨InvType.BLOCK, hdr.block_hash⟩ → ¬ inv ∈ st'.pending_inv_) := by
  refine ⟨?_, ?_, ?_, ?_⟩
  · by_cases hm : inv ∈ st.pending_inv_ <;> simp [need_inv, hm]
  · intro hn
    refine ⟨by simp [notify_inv, hn], ?_⟩
    have h1 : notify_inv st inv =
        ({ st with pending_inv_ := inv :: st.pending_inv_ }, [ClientAction.getdata inv]) := by
      simp [notify_inv, hn]
    rw [h1]
    simp [notify_inv, need_inv]
  · intro hn
    simp [notify_inv, hn]
  · intro k now batch st' acts hdr h hmem hinv
    unfold notify_headers at h
    by_cases hc : (batch.isEmpty &&
        tip_is_recent now ({ st with hdr_timeout_ := false } : ClientState H A).chain_) = true
    · rw [if_pos hc] at h
      have hbe : batch = [] := List.isEmpty_iff.mp (Bool.and_eq_true_iff.mp hc).1
      subst hbe
      simp at hmem
    · rw [if_neg hc] at h
      cases hs : sync_more_headers k
          (batch.foldl hdr_step ({ st with hdr_timeout_ := false } : ClientState H A)) none with
      | none => rw [hs] at h; simp at h
      | some p =>
        obtain ⟨st2, a2⟩ := p
        rw [hs] at h
        simp only [Option.some.injEq, Prod.mk.injEq] at h
        obtain ⟨hst, -⟩ := h
        obtain ⟨h2, -⟩ := sync_more_headers_eq_some _ _ _ _ _ hs
        intro habs
        rw [← hst, h2] at habs
        have := (mem_foldl_hdr_step batch _ inv).mp habs
        exact this.2 hdr hmem hinv

theorem need_inv_spec_witness :
    need_inv w6st w6inv = true ∧
    (notify_inv w6st w6inv).2 = [ClientAction.getdata w6inv] ∧
    (notify_inv (notify_inv w6st w6inv).1 w6inv).2 = [] ∧
    (∃ st' acts, notify_headers 0 1000000 w6st [w6hdr] = some (st', acts) ∧
      ¬ w6inv ∈ st'.pending_inv_) := by
  have h0 : need_inv w6st w6inv = true := by decide
  have h1 := ((need_inv_spec w6st w6inv).2.1 h0).1
  have h2 := ((need_inv_spec w6st w6inv).2.1 h0).2
  refine ⟨h0, by rw [h1], h2, ?_⟩
  cases hs : notify_headers 0 1000000 w6st [w6hdr] with
  | none => cases (by decide : ¬ notify_headers 0 1000000 w6st [w6hdr] = none) hs
  | some p =>
    exact ⟨p.1, p.2, rfl, (need_inv_spec w6st w6inv).2.2.2 0 1000000 [w6hdr] p.1 p.2 w6hdr
      (by rw [hs]) (by simp) rfl⟩

/-- C7: `select_peer` considers exactly the known-peer addresses not already
connected; when that list is non-empty it returns one of them, otherwise one
of the not-connected seed peers; the returned address is never one already
connected, and with no candidate at all the `assert(peers.size())` fails
(modelled as `none`).  The uniform choice is modelled by the arbitrary
index `k`. -/
theorem select_peer_spec (st : ClientState H A) (k : Nat) :
    (∀ a, a ∈ select_peer_known st ↔
      ((∃ p ∈ st.peers_, p.addr = a) ∧ ¬ a ∈ st.connections_.map Prod.fst)) ∧
    (∀ a, a ∈ select_peer_seed st ↔
      (a ∈ st.seed_peers_ ∧ ¬ a ∈ st.connections_.map Prod.fst)) ∧
    (select_peer_known st ≠ [] →
      ∃ a, select_peer k st = some a ∧ a ∈ select_peer_known st) ∧
    (select_peer_known st = [] → select_peer_seed st ≠ [] →
      ∃ a, select_peer k st = some a ∧ a ∈ select_peer_seed st) ∧
    (∀ a, select_peer k st = some a → ¬ a ∈ st.connections_.map Prod.fst) ∧
    (select_peer_known st = [] → select_peer_seed st = [] → select_peer k st = none) := by
  have hk : ∀ a, a ∈ select_peer_known st ↔
      ((∃ p ∈ st.peers_, p.addr = a) ∧ ¬ a ∈ st.connections_.map Prod.fst) := by
    intro a
    simp only [select_peer_known, List.mem_map, List.mem_filter, decide_eq_true_eq]
    constructor
    · rintro ⟨p, ⟨hp, hnc⟩, rfl⟩
      exact ⟨⟨p, hp, rfl⟩, hnc⟩
    · rintro ⟨⟨p, hp, hpa⟩, hnc⟩
      exact ⟨p, ⟨hp, hpa ▸ hnc⟩, hpa⟩
  have hs : ∀ a, a ∈ select_peer_seed st ↔
      (a ∈ st.seed_peers_ ∧ ¬ a ∈ st.connections_.map Prod.fst) := by
    intro a
    simp [select_peer_seed, List.mem_filter, decide_eq_true_eq]
  have hknown : select_peer_known st ≠ [] →
      ∃ a, select_peer k st = some a ∧ a ∈ select_peer_known st := by
    intro hne
    obtain ⟨a, ha, ham⟩ := getElem_mod_some (select_peer_known st) k hne
    refine ⟨a, ?_, ham⟩
    unfold select_peer
    rw [ha]
  have hseed : select_peer_known st = [] → select_peer_seed st ≠ [] →
      ∃ a, select_peer k st = some a ∧ a ∈ select_peer_seed st := by
    intro hke hne
    obtain ⟨a, ha, ham⟩ := getElem_mod_some (select_peer_seed st) k hne
    refine ⟨a, ?_, ham⟩
    unfold select_peer
    rw [hke]
    simpa using ha
  refine ⟨hk, hs, hknown, hseed, ?_, ?_⟩
  · intro a ha
    by_cases hke : select_peer_known st = []
    · by_cases hse : select_peer_seed st = []
      · unfold select_peer at ha
        rw [hke, hse] at ha
        simp at ha
      · obtain ⟨b, hb, hbm⟩ := hseed hke hse
        rw [ha] at hb
        obtain rfl : a = b := by injection hb
        exact ((hs a).mp hbm).2
    · obtain ⟨b, hb, hbm⟩ := hknown hke
      rw [ha] at hb
      obtain rfl : a = b := by injection hb
      exact ((hk a).mp hbm).2
  · intro hke hse
    unfold select_peer
    rw [hke, hse]
    simp

theorem select_peer_spec_witness :
    ((1 : Nat) ∈ select_peer_known w7st ↔
      ((∃ p ∈ w7st.peers_, p.addr = 1) ∧ ¬ (1 : Nat) ∈ w7st.connections_.map Prod.fst)) ∧
    (select_peer_known w7st ≠ [] ∧
      ∃ a, select_peer 0 w7st = some a ∧ a ∈ select_peer_known w7st) ∧
    (∀ a, select_peer 0 w7st = some a → ¬ a ∈ w7st.connections_.map Prod.fst) ∧
    select_peer 0 w7st = some 1 :=
  ⟨(select_peer_spec w7st 0).1 1,
   ⟨by decide, (select_peer_spec w7st 0).2.2.1 (by decide)⟩,
   (select_peer_spec w7st 0).2.2.2.2.1,
   by decide⟩

/-- C8 (amended): `Client::shutdown` is idempotent — the flag guard makes a
second call change nothing — and once the flag is set `connect_to_new_peer`
(the peer-replacement path) opens no connection; `notify_peer`, however,
lacks the shutdown check (see the counterexample). -/
theorem client_shutdown_idempotent (st : ClientState H A) (k : Nat) :
    client_shutdown (client_shutdown st) = client_shutdown st ∧
    (client_shutdown st).shutdown_ = true ∧
    (st.shutdown_ = true → client_shutdown st = st) ∧
    (st.shutdown_ = true → connect_to_new_peer k st = some (st, [])) := by
  have hdone : ∀ x : ClientState H A, x.shutdown_ = true → client_shutdown x = x := by
    intro x hx
    unfold client_shutdown
    rw [if_pos hx]
  have hflag : (client_shutdown st).shutdown_ = true := by
    unfold client_shutdown
    by_cases h : st.shutdown_ <;> simp [h]
  refine ⟨hdone _ hflag, hflag, hdone st, ?_⟩
  intro h
  unfold connect_to_new_peer
  rw [if_neg (by simp [h])]

theorem client_shutdown_idempotent_witness :
    w8st.shutdown_ = true ∧ client_shutdown w8st = w8st ∧
    connect_to_new_peer 0 w8st = some (w8st, []) ∧
    client_shutdown (client_shutdown w8st) = client_shutdown w8st :=
  ⟨rfl, (client_shutdown_idempotent w8st 0).2.2.1 rfl,
   (client_shutdown_idempotent w8st 0).2.2.2 rfl,
   (client_shutdown_idempotent w8st 0).1⟩

/-- C8 counterexample: with the shutdown flag set, a fresh gossiped address
under the connection cap still makes `notify_peer` call `connect_to_addr`
(the `Connect` action) — `Client::notify_peer` never consults `shutdown_`. -/
theorem notify_peer_after_shutdown :
    w8st.shutdown_ = true ∧
    (notify_peer w8st ⟨0, 0, 42⟩).2 = [ClientAction.connect 42] ∧
    (notify_peer w8st ⟨0, 0, 42⟩).1.shutdown_ = true := by
  decide

/-- C9 (amended): with every seed unresolved and no known peers (and below
the connection cap, not in shutdown), `connect_to_new_peer` is not a no-op:
it calls `select_peer`, whose `assert(peers.size())` fails (modelled as
`none`), aborting the process instead of waiting for new peer info. -/
theorem connect_to_new_peer_no_candidates (st : ClientState H A) (k : Nat)
    (hp : st.peers_ = []) (hs : st.seed_peers_ = []) (hsd : st.shutdown_ = false)
    (hc : st.connections_.length < st.max_connections) :
    select_peer k st = none ∧ connect_to_new_peer k st = none := by
  have hk : select_peer_known st = [] := by simp [select_peer_known, hp]
  have hse : select_peer_seed st = [] := by simp [select_peer_seed, hs]
  have h1 : select_peer k st = none := by
    unfold select_peer
    rw [hk, hse]
    simp
  refine ⟨h1, ?_⟩
  unfold connect_to_new_peer
  rw [if_pos ⟨hsd, hc⟩, h1]

/-- C9 counterexample: in the no-candidate state the call yields the
assertion failure (`none`), not the no-op `some (st, [])` the claim
asserts. -/
theorem connect_to_new_peer_assert_cex :
    c9st.peers_ = [] ∧ c9st.seed_peers_ = [] ∧ c9st.shutdown_ = false ∧
    c9st.connections_ = [] ∧
    connect_to_new_peer 0 c9st = none ∧
    ¬ connect_to_new_peer 0 c9st = some (c9st, []) := by
  decide

theorem connect_to_new_peer_no_candidates_witness :
    (c9st.peers_ = [] ∧ c9st.seed_peers_ = [] ∧ c9st.shutdown_ = false ∧
      c9st.connections_.length < c9st.max_connections) ∧
    select_peer 0 c9st = none ∧ connect_to_new_peer 0 c9st = none :=
  ⟨⟨rfl, rfl, rfl, by decide⟩,
   (connect_to_new_peer_no_candidates c9st 0 rfl rfl rfl (by decide)).1,
   (connect_to_new_peer_no_candidates c9st 0 rfl rfl rfl (by decide)).2⟩

/-- C1 (amended): `notify_headers` cancels the header timer first; on an
empty reply with a recent tip it clears `need_headers_` and issues nothing;
otherwise it feeds every header to `put_block_header` in list order, erases
the pending entry equal to `Inv(BLOCK, hdr.block_hash)` — an entry of
another type with the same hash stays — calls `save_tip` and re-invokes
`sync_more_headers`, which re-arms the timer and issues one `getheaders`. -/
theorem notify_headers_spec (k now : Nat) (st : ClientState H A)
    (batch : List (BlockHeader H)) :
    (batch = [] ∧ tip_is_recent now st.chain_ = true →
      notify_headers k now st batch =
        some ({ st with hdr_timeout_ := false, need_headers_ := false }, [])) ∧
    (¬ (batch = [] ∧ tip_is_recent now st.chain_ = true) →
      ∀ st' acts, notify_headers k now st batch = some (st', acts) →
        st'.chain_ = batch.foldl put_block_header st.chain_ ∧
        (∀ i, i ∈ st'.pending_inv_ ↔ i ∈ st.pending_inv_ ∧
          ∀ hdr ∈ batch, ¬ i = ⟨InvType.BLOCK, hdr.block_hash⟩) ∧
        st'.need_headers_ = st.need_headers_ ∧
        st'.hdr_timeout_ = true ∧
        ∃ a, acts = [ClientAction.save_tip, ClientAction.getheaders a]) ∧
    (¬ (batch = [] ∧ tip_is_recent now st.chain_ = true) →
      (∃ c ∈ st.connections_, c.2.connected = true) →
      ∃ st' acts, notify_headers k now st batch = some (st', acts)) := by
  have hcond : ¬ (batch = [] ∧ tip_is_recent now st.chain_ = true) →
      (batch.isEmpty && tip_is_recent now st.chain_) = false := by
    intro hne
    rcases batch with _ | ⟨b, t⟩
    · simp only [ne_eq, List.isEmpty_nil, Bool.true_and]
      simp at hne
      simp [hne]
    · simp
  refine ⟨?_, ?_, ?_⟩
  · rintro ⟨rfl, hr⟩
    unfold notify_headers
    rw [if_pos (by simp [hr])]
  · intro hne st' acts h
    unfold notify_headers at h
    rw [if_neg (by simp [hcond hne])] at h
    cases hs : sync_more_headers k
        (batch.foldl hdr_step ({ st with hdr_timeout_ := false } : ClientState H A)) none with
    | none => rw [hs] at h; simp at h
    | some p =>
      obtain ⟨st2, a2⟩ := p
      rw [hs] at h
      simp only [Option.some.injEq, Prod.mk.injEq] at h
      obtain ⟨hst, hacts⟩ := h
      obtain ⟨h2, a, ha⟩ := sync_more_headers_eq_some _ _ _ _ _ hs
      subst hst
      subst h2
      refine ⟨?_, ?_, ?_, rfl, ?_⟩
      · exact foldl_hdr_step_chain batch _
      · intro i
        exact mem_foldl_hdr_step batch _ i
      · exact (foldl_hdr_step_frame batch _).2.1
      · exact ⟨a, by rw [← hacts, ha]⟩
  · intro hne hconn
    have hc1 : (batch.foldl hdr_step
        ({ st with hdr_timeout_ := false } : ClientState H A)).connections_ =
        st.connections_ := (foldl_hdr_step_frame batch _).2.2.2.1
    have hto : (batch.foldl hdr_step
        ({ st with hdr_timeout_ := false } : ClientState H A)).hdr_timeout_ = false :=
      (foldl_hdr_step_frame batch _).2.2.1
    obtain ⟨c, hc, -, -⟩ := random_connection_some k
      (batch.foldl hdr_step ({ st with hdr_timeout_ := false } : ClientState H A))
      (by rw [hc1]; exact hconn)
    refine ⟨{ (batch.foldl hdr_step ({ st with hdr_timeout_ := false } : ClientState H A)) with
                hdr_timeout_ := true },
            [ClientAction.save_tip, ClientAction.getheaders c.1], ?_⟩
    unfold notify_headers
    rw [if_neg (by simp [hcond hne])]
    simp [sync_more_headers, hc, hto]

/-- C1 counterexample: a pending `Inv(TX, 1)` entry has the same hash as the
delivered header (`block_hash = 1`) yet survives `notify_headers` — only the
`Inv(BLOCK, 1)` key is erased, so "any pending_inv entry whose hash equals
that header's hash is removed" is false. -/
theorem notify_headers_pending_tx_cex :
    c1hdr.block_hash = 1 ∧ (⟨InvType.TX, 1⟩ : Inv Nat) ∈ c1st.pending_inv_ ∧
    (notify_headers 0 1000000 c1st [c1hdr]).map (fun p => p.1.pending_inv_) =
      some [⟨InvType.TX, 1⟩] := by
  decide

theorem notify_headers_spec_witness :
    ¬ (([c1hdr] : List (BlockHeader Nat)) = [] ∧
        tip_is_recent 1000000 c1st.chain_ = true) ∧
    (∃ st' acts, notify_headers 0 1000000 c1st [c1hdr] = some (st', acts) ∧
      st'.chain_ = [c1hdr].foldl put_block_header c1st.chain_ ∧
      st'.hdr_timeout_ = true ∧
      ∃ a, acts = [ClientAction.save_tip, ClientAction.getheaders a]) := by
  have hne : ¬ (([c1hdr] : List (BlockHeader Nat)) = [] ∧
      tip_is_recent 1000000 c1st.chain_ = true) := by decide
  refine ⟨hne, ?_⟩
  obtain ⟨st', acts, h⟩ := (notify_headers_spec 0 1000000 c1st [c1hdr]).2.2 hne
    ⟨(5, ⟨true, true, false⟩), by decide, by decide⟩
  obtain ⟨h1, -, -, h4, h5⟩ := (notify_headers_spec 0 1000000 c1st [c1hdr]).2.1 hne st' acts h
  exact ⟨st', acts, h, h1, h4, h5⟩

theorem mkBatch_length (s : Nat) (tss : List Nat) :
    (mkBatch s tss).length = tss.length := by
  induction tss generalizing s with
  | nil => rfl
  | cons ts rest ih => simp [mkBatch, ih]

theorem put_mkHeader_step (c : Chain Nat) (s ts : Nat) (h : linearInv s c) :
    put_block_header c (mkHeader (s + 1) ts) =
      ⟨(⟨s + 1, s, c.tip.height + 1, ts⟩ : ChainNode Nat) :: c.nodes,
       ⟨s + 1, s, c.tip.height + 1, ts⟩⟩ := by
  obtain ⟨h1, h2, h3⟩ := h
  have hb : (mkHeader (s + 1) ts).block_hash = s + 1 := rfl
  have hp : (mkHeader (s + 1) ts).prev_block = s := by simp [mkHeader]
  have hnew : has_block c (s + 1) = false := by
    unfold has_block chainFind
    rw [List.find?_eq_none.mpr]
    · rfl
    · intro n hn
      simp only [decide_eq_true_eq]
      have := h3 n hn
      omega
  unfold put_block_header
  rw [hb, hp, hnew, h2]
  simp [Nat.lt_succ_self, mkHeader]

theorem mkBatch_foldl (tss : List Nat) (s : Nat) (c : Chain Nat) (h : linearInv s c) :
    linearInv (s + tss.length) ((mkBatch s tss).foldl put_block_header c) ∧
    ((mkBatch s tss).foldl put_block_header c).tip.height = c.tip.height + tss.length ∧
    ∀ t, tss.getLast? = some t →
      ((mkBatch s tss).foldl put_block_header c).tip.timestamp = t := by
  induction tss generalizing s c with
  | nil =>
    simp only [mkBatch, List.foldl_nil, List.length_nil, Nat.add_zero]
    exact ⟨h, by simp, by simp⟩
  | cons ts rest ih =>
    have hstep := put_mkHeader_step c s ts h
    have hinv' : linearInv (s + 1) (put_block_header c (mkHeader (s + 1) ts)) := by
      rw [hstep]
      refine ⟨rfl, ?_, ?_⟩
      · simp [chainFind, List.find?]
      · intro n hn
        rcases List.mem_cons.mp hn with rfl | hn
        · exact Nat.le_refl _
        · exact Nat.le_succ_of_le (h.2.2 n hn)
    obtain ⟨ih1, ih2, ih3⟩ := ih (s + 1) _ hinv'
    have harith : s + 1 + rest.length = s + (ts :: rest).length := by
      simp only [List.length_cons]
      omega
    refine ⟨?_, ?_, ?_⟩
    · rw [← harith]
      simpa [mkBatch] using ih1
    · have hh : (put_block_header c (mkHeader (s + 1) ts)).tip.height =
          c.tip.height + 1 := by rw [hstep]
      simp only [mkBatch, List.foldl_cons]
      rw [ih2, hh]
      simp only [List.length_cons]
      omega
    · intro t ht
      simp only [mkBatch, List.foldl_cons]
      rcases rest with _ | ⟨r, rs⟩
      · simp at ht
        subst ht
        simp [mkBatch]
        rw [hstep]
      · rw [List.getLast?_cons_cons] at ht
        exact ih3 t ht

theorem notify_eval_nonempty (k now : Nat) (st : ClientState Nat Nat)
    (batch : List (BlockHeader Nat)) (hne : batch ≠ [])
    (hconn : st.connections_ = [(7, ⟨true, true, false⟩)]) :
    notify_headers k now st batch =
      some ({ batch.foldl hdr_step { st with hdr_timeout_ := false } with
                hdr_timeout_ := true },
            [ClientAction.save_tip, ClientAction.getheaders 7]) := by
  have hcond : (batch.isEmpty && tip_is_recent now st.chain_) = false := by
    rcases batch with _ | _
    · exact absurd rfl hne
    · simp
  have hc1 : (batch.foldl hdr_step
      ({ st with hdr_timeout_ := false } : ClientState Nat Nat)).connections_ =
      [(7, ⟨true, true, false⟩)] := by
    rw [(foldl_hdr_step_frame batch _).2.2.2.1]
    exact hconn
  have hto : (batch.foldl hdr_step
      ({ st with hdr_timeout_ := false } : ClientState Nat Nat)).hdr_timeout_ = false :=
    (foldl_hdr_step_frame batch _).2.2.1
  have hrand : random_connection k
      (batch.foldl hdr_step ({ st with hdr_timeout_ := false } : ClientState Nat Nat)) =
      some (7, ⟨true, true, false⟩) := by
    unfold random_connection
    rw [hc1]
    simp [Conn.connected, Nat.mod_one]
  unfold notify_headers
  rw [if_neg (by simp [hcond])]
  simp [sync_more_headers, hrand, hto]

theorem notify_eval_empty (k now : Nat) (st : ClientState Nat Nat)
    (hr : tip_is_recent now st.chain_ = true) :
    notify_headers k now st [] =
      some ({ st with hdr_timeout_ := false, need_headers_ := false }, []) := by
  unfold notify_headers
  rw [if_pos (by simp [hr])]

theorem batchA_eq : batchA = mkBatch 0 tssA := by
  unfold batchA
  rfl


theorem batchB_eq : batchB = mkBatch 2000 tssB := by
  unfold batchB
  rfl

theorem scnS1fold_eq :
    scnS1fold = batchA.foldl hdr_step { st0scn with hdr_timeout_ := false } := by
  unfold scnS1fold
  rfl

theorem scnS1_eq : scnS1 = { scnS1fold with hdr_timeout_ := true } := rfl

theorem scnS2fold_eq :
    scnS2fold = batchB.foldl hdr_step { scnS1 with hdr_timeout_ := false } := by
  unfold scnS2fold
  rfl

theorem scnS2_eq : scnS2 = { scnS2fold with hdr_timeout_ := true } := rfl

theorem scnS3_eq :
    scnS3 = { scnS2 with hdr_timeout_ := false, need_headers_ := false } := rfl

theorem scnS1_chain : scnS1.chain_ = scnS1fold.chain_ := by rw [scnS1_eq]

theorem scnS1_conn : scnS1.connections_ = scnS1fold.connections_ := by rw [scnS1_eq]

theorem scnS2_chain : scnS2.chain_ = scnS2fold.chain_ := by rw [scnS2_eq]

theorem scnS3_chain : scnS3.chain_ = scnS2.chain_ := by rw [scnS3_eq]

theorem scnS3_need : scnS3.need_headers_ = false := by rw [scnS3_eq]

theorem chain0_linearInv : linearInv 0 chain0 := by
  refine ⟨rfl, rfl, ?_⟩
  intro n hn
  rcases List.mem_singleton.mp hn with rfl
  exact Nat.le_refl _

theorem scnChain1 : scnS1.chain_ = batchA.foldl put_block_header chain0 := by
  have hstc : ({ st0scn with hdr_timeout_ := false } : ClientState Nat Nat).chain_ =
      chain0 := rfl
  rw [scnS1_chain, scnS1fold_eq, foldl_hdr_step_chain, hstc]

theorem scnChain2 : scnS2.chain_ = batchB.foldl put_block_header scnS1.chain_ := by
  have hstc : ({ scnS1 with hdr_timeout_ := false } : ClientState Nat Nat).chain_ =
      scnS1.chain_ := rfl
  rw [scnS2_chain, scnS2fold_eq, foldl_hdr_step_chain, hstc]

theorem scnInv1 : linearInv 2000 scnS1.chain_ ∧ scnS1.chain_.tip.height = 2000 := by
  obtain ⟨hinv, hh, -⟩ := mkBatch_foldl tssA 0 chain0 chain0_linearInv
  have hlen : tssA.length = 2000 := by simp only [tssA, List.length_replicate]
  rw [hlen] at hinv hh
  rw [scnChain1, batchA_eq]
  refine ⟨by simpa using hinv, ?_⟩
  have h0 : chain0.tip.height = 0 := rfl
  rw [hh, h0, Nat.zero_add]

theorem scnInv2 : scnS2.chain_.tip.height = 2500 ∧ scnS2.chain_.tip.timestamp = scnNow := by
  obtain ⟨-, hh, hts⟩ := mkBatch_foldl tssB 2000 scnS1.chain_ scnInv1.1
  have hlen : tssB.length = 500 := by
    simp only [tssB, List.length_append, List.length_replicate, List.length_cons,
      List.length_nil]
  rw [hlen] at hh
  have hlast : tssB.getLast? = some scnNow := List.getLast?_concat _
  constructor
  · rw [scnChain2, batchB_eq, hh, scnInv1.2]
  · rw [scnChain2, batchB_eq]
    exact hts scnNow hlast

theorem scnRecent : tip_is_recent scnNow scnS2.chain_ = true := by
  unfold tip_is_recent
  rw [scnInv2.2]
  rfl

theorem scnEval1 : notify_headers 0 scnNow st0scn batchA =
    some (scnS1, [ClientAction.save_tip, ClientAction.getheaders 7]) := by
  have hlenA : batchA.length = 2000 := by
    rw [batchA_eq, mkBatch_length]
    simp only [tssA, List.length_replicate]
  have hA_ne : batchA ≠ [] := by
    intro h
    rw [h] at hlenA
    simp at hlenA
  have h1 := notify_eval_nonempty 0 scnNow st0scn batchA hA_ne rfl
  rw [← scnS1fold_eq, ← scnS1_eq] at h1
  exact h1

theorem scnEval2 : notify_headers 0 scnNow scnS1 batchB =
    some (scnS2, [ClientAction.save_tip, ClientAction.getheaders 7]) := by
  have hlenB : batchB.length = 500 := by
    rw [batchB_eq, mkBatch_length]
    simp only [tssB, List.length_append, List.length_replicate, List.length_cons,
      List.length_nil]
  have hB_ne : batchB ≠ [] := by
    intro h
    rw [h] at hlenB
    simp at hlenB
  have hstc : ({ st0scn with hdr_timeout_ := false } : ClientState Nat Nat).connections_ =
      [(7, ⟨true, true, false⟩)] := rfl
  have hconn1 : scnS1.connections_ = [(7, ⟨true, true, false⟩)] := by
    rw [scnS1_conn, scnS1fold_eq, (foldl_hdr_step_frame batchA _).2.2.2.1, hstc]
  have h2 := notify_eval_nonempty 0 scnNow scnS1 batchB hB_ne hconn1
  rw [← scnS2fold_eq, ← scnS2_eq] at h2
  exact h2

theorem scnEval3 : notify_headers 0 scnNow scnS2 [] = some (scnS3, []) := by
  have h3 := notify_eval_empty 0 scnNow scnS2 scnRecent
  rw [← scnS3_eq] at h3
  exact h3

/-- C2 (amended): in the scripted sync — batches of 2000 and 500 headers
(the 500-batch's last timestamp within 24 h of now) and then an empty
`headers` reply, each answering the previous `getheaders` — the chain ends
at height genesis + 2500 and `need_headers_` becomes false, but `save_tip`
is emitted exactly 2 times, once per non-empty batch: the empty reply
returns before the `save_tip` call. -/
theorem header_sync_scenario :
    batchA.length = 2000 ∧ batchB.length = 500 ∧
    ∃ s1 a1 s2 a2 s3 a3,
      notify_headers 0 scnNow st0scn batchA = some (s1, a1) ∧
      notify_headers 0 scnNow s1 batchB = some (s2, a2) ∧
      notify_headers 0 scnNow s2 [] = some (s3, a3) ∧
      s3.chain_.tip.height = 2500 ∧ s3.need_headers_ = false ∧
      countSaveTip (a1 ++ a2 ++ a3) = 2 := by
  refine ⟨?_, ?_, scnS1, _, scnS2, _, scnS3, [],
    scnEval1, scnEval2, scnEval3, ?_, scnS3_need, rfl⟩
  · rw [batchA_eq, mkBatch_length]
    simp only [tssA, List.length_replicate]
  · rw [batchB_eq, mkBatch_length]
    simp only [tssB, List.length_append, List.length_replicate, List.length_cons,
      List.length_nil]
  · rw [scnS3_chain]
    exact scnInv2.1

/-- C2 counterexample: running the scripted scenario, the three replies
produce `save_tip` exactly 2 times in total, not the 3 the claim states. -/
theorem header_sync_scenario_cex :
    notify_headers 0 scnNow st0scn batchA =
      some (scnS1, [ClientAction.save_tip, ClientAction.getheaders 7]) ∧
    notify_headers 0 scnNow scnS1 batchB =
      some (scnS2, [ClientAction.save_tip, ClientAction.getheaders 7]) ∧
    notify_headers 0 scnNow scnS2 [] = some (scnS3, []) ∧
    countSaveTip ([ClientAction.save_tip, ClientAction.getheaders 7] ++
      ([ClientAction.save_tip, ClientAction.getheaders 7] ++ ([] : List (ClientAction Nat Nat)))) = 2 ∧
    ¬ (2 : Nat) = 3 :=
  ⟨scnEval1, scnEval2, scnEval3, rfl, by omega⟩

end spv
